import Mathlib

/-!
Shallow embedding of the `river` repository core:
`src/creme/neighbors/knn_regressor.py` (class `KNNRegressor`) and
`src/creme/feature_extraction/vectorize.py` (class `CountVectorizer`).

Numeric values are modelled as rationals (`ℚ`).  Python dictionaries of
features are modelled as association lists in insertion order.  The parts of
the repository that the two source files depend on but that are not shipped
with them (`creme.utils.dict2numpy` together with the process-wide
feature-name registry, `BaseNeighbors` with its sliding window `data_window`
and its KD-tree query `_get_neighbors`) are modelled from the spec; each such
definition carries a doc comment starting with `Modelled from the spec:`.
-/

/-- A named-feature input `x : dict` — an association list in insertion
order, feature name to numeric value. -/
abbrev FeatureMap := List (String × ℚ)

/-- Value of feature `n` in `x`, `0` when the name is absent (a vector is
always projected against the full global ordering, absent names give 0). -/
def lookup0 (x : FeatureMap) (n : String) : ℚ :=
  match x.find? (fun p => p.1 = n) with
  | some p => p.2
  | none => 0

/-- Modelled from the spec: the process-wide feature-name registry mutation
performed by the codec (`dict2numpy` in `creme.utils`, not under src/).
Every name of `x` not registered yet is appended at the end of the global
ordering, in the order it appears in `x`. -/
def registerNames (r : List String) (x : FeatureMap) : List String :=
  x.foldl (fun acc p => if p.1 ∈ acc then acc else acc ++ [p.1]) r

/-- Modelled from the spec: the feature-vector codec
(`project(named_features) -> vector`): registers the unseen names of `x`,
then returns the updated registry together with the vector of `x`'s values
over the full registry, absent names contributing 0, in registration
order. -/
def project (r : List String) (x : FeatureMap) : List String × List ℚ :=
  let rNew := registerNames r x
  (rNew, rNew.map (lookup0 x))

/-- Modelled from the spec: the sliding-window store held by the engine as
`data_window` (from `base_neighbors.py`, not under src/): a capacity-bounded,
insertion-ordered sequence of (feature vector, target) entries, oldest
first. -/
structure Window where
  capacity : ℕ
  entries : List (List ℚ × ℚ)
deriving Repr, DecidableEq

/-- `Window.size`: current number of stored entries. -/
def Window.size (w : Window) : ℕ := w.entries.length

/-- Modelled from the spec: `data_window.add_one(x_arr, y)` — append the new
entry; when the capacity is exceeded the single oldest entry is evicted
(FIFO).  Dropping `(length) - capacity` from the front drops nothing while
the window is below capacity and exactly the oldest entry once full. -/
def Window.addOne (w : Window) (v : List ℚ) (y : ℚ) : Window :=
  let es := w.entries ++ [(v, y)]
  { w with entries := es.drop (es.length - w.capacity) }

/-- Zip two vectors, padding the shorter one with 0: the spec's codec lets
older vectors conceptually gain trailing zeros as the registry grows. -/
def zipPad : List ℚ → List ℚ → List (ℚ × ℚ)
  | [], [] => []
  | a :: as, [] => (a, 0) :: zipPad as []
  | [], b :: bs => (0, b) :: zipPad [] bs
  | a :: as, b :: bs => (a, b) :: zipPad as bs

/-- Absolute value on `ℚ`, written explicitly so that it evaluates by
kernel reduction. -/
def absQ (q : ℚ) : ℚ := if q < 0 then -q else q

/-- `q ^ n` on `ℚ` by explicit recursion, so that it evaluates by kernel
reduction. -/
def powQ (q : ℚ) : ℕ → ℚ
  | 0 => 1
  | n + 1 => q * powQ q n

/-- Modelled from the spec: the p-th power of the Minkowski distance of
order `p`, `Σ |a_i - b_i|^p`.  The spec's distance is its `p`-th root; the
root is strictly monotone, so ordering neighbors by `dpow` orders them by
distance. -/
def dpow (p : ℕ) (a b : List ℚ) : ℚ :=
  ((zipPad a b).map (fun c => powQ (absQ (c.1 - c.2)) p)).sum

/-- Insert `a` into a list before the first element `b` with `lt b a`
false: the insertion step of a stable insertion sort. -/
def insertByLt (lt : α → α → Bool) (a : α) : List α → List α
  | [] => [a]
  | b :: bs => if lt b a then b :: insertByLt lt a bs else a :: b :: bs

/-- Stable insertion sort: ascending under the strict comparison `lt`,
elements with equal keys keep their original relative order. -/
def sortByLt (lt : α → α → Bool) (l : List α) : List α :=
  l.foldr (insertByLt lt) []

/-- Modelled from the spec: `self._get_neighbors(x_arr)` — the spatial-index
query (`base_neighbors.py` / `scipy cKDTree`, not under src/).  Returns the
`k` (powered-distance, target) pairs nearest to the query under Minkowski
order `p`; the sort is stable, so ties are broken by increasing insertion
sequence number as the spec requires. -/
def nearestK (k p : ℕ) (entries : List (List ℚ × ℚ)) (q : List ℚ) :
    List (ℚ × ℚ) :=
  (sortByLt (fun a b => decide (a.1 < b.1))
    (entries.map (fun e => (dpow p q e.1, e.2)))).take k

/-- `np.mean` of a list of targets. -/
def npMean (l : List ℚ) : ℚ := l.sum / l.length

/-- `np.median` of a list of targets: sort, take the middle element (odd
length) or the mean of the two middle elements (even length). -/
def npMedian (l : List ℚ) : ℚ :=
  let s := sortByLt (fun a b => decide (a < b)) l
  if l.length % 2 = 1 then s.getD (l.length / 2) 0
  else (s.getD (l.length / 2 - 1) 0 + s.getD (l.length / 2) 0) / 2

/-- `np.average(vals, weights=ws)`: the weighted sum divided by the total
weight. -/
def npAverage (vals ws : List ℚ) : ℚ :=
  (List.zipWith (fun w v => w * v) ws vals).sum / ws.sum

/-- The weighted-mean aggregation of `predict_one` (lines 147-153 of
`knn_regressor.py`): `sum_dist = dists.sum()`, raw weights
`1 - dist / sum_dist`, then `weights /= weights.sum()` and
`np.average(neighbor_vals, weights=weights)`.  Over `ℚ`, division by zero is
totalised to 0; the degenerate all-zero-distance case is modelled exactly by
the IEEE-style `weightedMeanF` below. -/
def weightedMeanAgg (dists vals : List ℚ) : ℚ :=
  let sumDist := dists.sum
  let ws := dists.map (fun d => 1 - d / sumDist)
  let wn := ws.map (fun w => w / ws.sum)
  npAverage vals wn

/-- The `KNNRegressor` object: the configuration stored at construction and
the sliding window `data_window`. -/
structure KNNRegressor where
  n_neighbors : ℕ
  max_window_size : ℕ
  leaf_size : ℕ
  p : ℕ
  aggregation_method : String
  data_window : Window
deriving Repr, DecidableEq

/-- The engine together with the process-wide feature-name registry that the
codec mutates. -/
structure EngineState where
  reg : List String
  model : KNNRegressor
deriving Repr, DecidableEq

/-- A freshly constructed engine: empty window of the configured capacity,
empty registry. -/
def freshEngine (n_neighbors max_window_size leaf_size p : ℕ)
    (aggregation_method : String) : EngineState :=
  { reg := []
    model :=
      { n_neighbors := n_neighbors
        max_window_size := max_window_size
        leaf_size := leaf_size
        p := p
        aggregation_method := aggregation_method
        data_window := { capacity := max_window_size, entries := [] } } }

/-- `KNNRegressor.learn_one(x, y)` (lines 109-112): project `x` through the
codec (`dict2numpy`) and insert the (vector, target) pair into the window. -/
def learn_one (s : EngineState) (x : FeatureMap) (y : ℚ) : EngineState :=
  let pr := project s.reg x
  { reg := pr.1
    model := { s.model with
                data_window := s.model.data_window.addOne pr.2 y } }

/-- Apply a sequence of `learn_one` calls, oldest first. -/
def runLearns (s : EngineState) (calls : List (FeatureMap × ℚ)) :
    EngineState :=
  calls.foldl (fun acc c => learn_one acc c.1 c.2) s

/-- `KNNRegressor.predict_one(x)` (lines 114-155): if the window holds fewer
than `n_neighbors` entries, return the no-prediction sentinel (`None`,
modelled as `none`) without touching the codec; otherwise project `x`, query
the spatial index for the `n_neighbors` nearest (distance, target) pairs and
aggregate their targets according to `aggregation_method`.  The result is
paired with the state after the call: only the process-wide registry can
change, and only on the prediction path. -/
def predict_one (s : EngineState) (x : FeatureMap) :
    Option ℚ × EngineState :=
  if s.model.data_window.size < s.model.n_neighbors then (none, s)
  else
    let pr := project s.reg x
    let nbrs := nearestK s.model.n_neighbors s.model.p
      s.model.data_window.entries pr.2
    let dists := nbrs.map Prod.fst
    let vals := nbrs.map Prod.snd
    let y :=
      if s.model.aggregation_method = "mean" then npMean vals
      else if s.model.aggregation_method = "median" then npMedian vals
      else weightedMeanAgg dists vals
    (some y, { s with reg := pr.1 })

/-- Python exception kinds relevant to construction. -/
inductive PyError where
  | valueError (msg : String)
  | attributeError (msg : String)
deriving Repr, DecidableEq

/-- Modelled from the spec: `BaseNeighbors.__init__` (file `base_neighbors.py`
is not under src/).  Stores the numeric configuration; per the spec,
construction validates `n_neighbors > 0`, `max_window_size > 0`,
`leaf_size > 0` and `p >= 1`, failing with a configuration error otherwise.
The source declares `p` a float; the model restricts it to integer Minkowski
orders, which covers the Manhattan and Euclidean cases of the spec and every
claim. -/
def baseInit (n_neighbors max_window_size leaf_size p : ℤ) :
    Except PyError (ℤ × ℤ × ℤ × ℤ) :=
  if n_neighbors ≤ 0 ∨ max_window_size ≤ 0 ∨ leaf_size ≤ 0 ∨ p < 1 then
    Except.error (PyError.valueError "invalid configuration")
  else Except.ok (n_neighbors, max_window_size, leaf_size, p)

/-- `KNNRegressor.__init__` (lines 75-87 of `knn_regressor.py`): run the
`BaseNeighbors` initialiser, then check
`aggregation_method in (_MEAN, _MEDIAN, _WEIGHTED_MEAN)`.  On failure the
source builds a `ValueError` whose message is formatted from
`self.f_WEIGHTED_MEAN` — an attribute that does not exist (the class defines
`_WEIGHTED_MEAN`), so the attribute lookup raises `AttributeError` before
the intended `ValueError` can be raised. -/
def knn_init (n_neighbors max_window_size leaf_size p : ℤ)
    (aggregation_method : String) : Except PyError KNNRegressor :=
  match baseInit n_neighbors max_window_size leaf_size p with
  | Except.error e => Except.error e
  | Except.ok cfg =>
    if aggregation_method ∈ (["mean", "median", "weighted_mean"] : List String)
    then
      Except.ok
        { n_neighbors := cfg.1.toNat
          max_window_size := cfg.2.1.toNat
          leaf_size := cfg.2.2.1.toNat
          p := cfg.2.2.2.toNat
          aggregation_method := aggregation_method
          data_window := { capacity := cfg.2.1.toNat, entries := [] } }
    else
      Except.error (PyError.attributeError
        "KNNRegressor object has no attribute f_WEIGHTED_MEAN")

/-- An IEEE-754-style value: not-a-number, a signed infinity, or a finite
value (modelled as a rational; rounding plays no role in the claims that use
this type, whose finite values are all exactly representable). -/
inductive NFloat where
  | nan : NFloat
  | inf (pos : Bool) : NFloat
  | fin (q : ℚ) : NFloat
deriving Repr, DecidableEq

/-- IEEE negation: NaN propagates, infinities flip sign. -/
def NFloat.neg : NFloat → NFloat
  | nan => nan
  | inf s => inf (!s)
  | fin q => fin (-q)

/-- IEEE addition: NaN propagates, opposite infinities give NaN. -/
def NFloat.add : NFloat → NFloat → NFloat
  | nan, _ => nan
  | _, nan => nan
  | inf s, inf t => if s = t then inf s else nan
  | inf s, fin _ => inf s
  | fin _, inf t => inf t
  | fin a, fin b => fin (a + b)

/-- IEEE subtraction, as addition of the negation. -/
def NFloat.sub (a b : NFloat) : NFloat := a.add b.neg

/-- IEEE multiplication: NaN propagates, `inf * 0` gives NaN. -/
def NFloat.mul : NFloat → NFloat → NFloat
  | nan, _ => nan
  | _, nan => nan
  | inf s, inf t => inf (s == t)
  | inf s, fin q => if q = 0 then nan else inf (s == decide (0 < q))
  | fin q, inf s => if q = 0 then nan else inf (s == decide (0 < q))
  | fin a, fin b => fin (a * b)

/-- IEEE division: NaN propagates, `inf / inf` and `0 / 0` give NaN, a
nonzero finite value divided by zero gives a signed infinity.  (`ℚ` has a
single zero, so the sign of a zero divisor is taken positive.) -/
def NFloat.div : NFloat → NFloat → NFloat
  | nan, _ => nan
  | _, nan => nan
  | inf _, inf _ => nan
  | inf s, fin q => inf (s == decide (0 ≤ q))
  | fin _, inf _ => fin 0
  | fin a, fin b =>
    if b = 0 then (if a = 0 then nan else inf (decide (0 < a)))
    else fin (a / b)

/-- `np.sum`-style left fold starting from 0. -/
def NFloat.sum (l : List NFloat) : NFloat := l.foldl NFloat.add (NFloat.fin 0)

/-- Lines 147-153 of `knn_regressor.py` over the IEEE-style value model:
`sum_dist = dists.sum()`, raw weights `1 - dist / sum_dist`, in-place
renormalisation `weights /= weights.sum()`, then
`np.average(neighbor_vals, weights=weights)` (the weighted sum divided by
the total weight).  This captures the degenerate all-zero-distance
behaviour of the floating-point source exactly. -/
def weightedMeanF (dists vals : List ℚ) : NFloat :=
  let sumDist := dists.sum
  let ws := dists.map (fun d =>
    NFloat.sub (NFloat.fin 1) (NFloat.div (NFloat.fin d) (NFloat.fin sumDist)))
  let wSum := NFloat.sum ws
  let wn := ws.map (fun w => NFloat.div w wSum)
  NFloat.div
    (NFloat.sum (List.zipWith NFloat.mul wn (vals.map NFloat.fin)))
    (NFloat.sum wn)

/-- A word character of the default token pattern `\b\w\w+\b`
(`build_tokenizer`, `vectorize.py` line 75): letters, digits and the
underscore. -/
def isWordChar (c : Char) : Bool := c.isAlphanum || c = '_'

/-- Maximal runs of word characters of a character list; `cur` is the
current run in reverse. -/
def wordRuns (cur : List Char) : List Char → List (List Char)
  | [] => if cur.isEmpty then [] else [cur.reverse]
  | c :: cs =>
    if isWordChar c then wordRuns (c :: cur) cs
    else if cur.isEmpty then wordRuns [] cs
    else cur.reverse :: wordRuns [] cs

/-- The default tokenizer of `VectorizerMixin.build_tokenizer`
(`vectorize.py` lines 73-76): all matches of `\b\w\w+\b`, that is the
maximal word-character runs of length at least two, in order. -/
def tokenize (s : String) : List String :=
  ((wordRuns [] s.toList).filter (fun r => 2 ≤ r.length)).map
    (fun r => String.mk r)

/-- `str.lower`, the lowercasing step of `build_preprocessor`
(`vectorize.py` lines 61-71).  The accent-stripping step
(`sklearn.feature_extraction.text.strip_accents_unicode`) is an external
collaborator explicitly out of scope in the spec; it acts as the identity on
accent-free text such as every input used here. -/
def lowerStr (s : String) : String := String.mk (s.toList.map Char.toLower)

/-- `collections.Counter` over a token list: token to occurrence count,
keyed in order of first occurrence. -/
def counterOf (toks : List String) : List (String × ℕ) :=
  toks.foldl
    (fun acc t =>
      if acc.any (fun q => q.1 = t) then
        acc.map (fun q => if q.1 = t then (q.1, q.2 + 1) else q)
      else acc ++ [(t, 1)])
    []

/-- The input of `CountVectorizer.transform_one`: either raw text (when the
`on` configuration is `None`) or a record of named text fields. -/
inductive VecInput where
  | raw (s : String)
  | record (m : List (String × String))
deriving Repr, DecidableEq

/-- The `CountVectorizer` object (`vectorize.py` lines 33-115): the
construction-time configuration — the `on` field name (called `onField`
here, `on` being reserved notation in Lean) and the preprocessing
and tokenizing callables stored by `VectorizerMixin.__init__`.  No other
state exists on the object. -/
structure CountVectorizer where
  onField : Option String
  preprocessor : String → String
  tokenizer : String → List String

/-- `VectorizerMixin._get_text` (lines 56-59): with `on` set, index the
record by the configured field (`none` models the `KeyError`/`TypeError` on
a missing field or non-record input); with `on` unset, the input itself must
be raw text. -/
def CountVectorizer.getText (v : CountVectorizer) : VecInput → Option String
  | VecInput.raw s => match v.onField with
    | none => some s
    | some _ => none
  | VecInput.record m => match v.onField with
    | none => none
    | some name => (m.find? (fun q => q.1 = name)).map Prod.snd

/-- `CountVectorizer.transform_one(x)` (lines 114-115): count the tokens of
the preprocessed text.  The result is paired with the object after the call;
the method assigns no attribute, so the object is returned unchanged. -/
def CountVectorizer.transform_one (v : CountVectorizer) (x : VecInput) :
    Option (List (String × ℕ)) × CountVectorizer :=
  ((v.getText x).map (fun t => counterOf (v.tokenizer (v.preprocessor t))), v)

/-- A `CountVectorizer` with the default configuration: `on=None`, the
default preprocessor and the default tokenizer. -/
def defaultCountVectorizer : CountVectorizer :=
  { onField := none, preprocessor := lowerStr, tokenizer := tokenize }

lemma Window.capacity_addOne (w : Window) (v : List ℚ) (y : ℚ) :
    (w.addOne v y).capacity = w.capacity := rfl

lemma Window.size_addOne (w : Window) (v : List ℚ) (y : ℚ) :
    (w.addOne v y).size = min (w.size + 1) w.capacity := by
  simp [Window.addOne, Window.size]
  omega

lemma learn_one_window (s : EngineState) (x : FeatureMap) (y : ℚ) :
    (learn_one s x y).model.data_window =
      s.model.data_window.addOne (project s.reg x).2 y := rfl

lemma size_runLearns :
    ∀ (calls : List (FeatureMap × ℚ)) (s : EngineState),
      s.model.data_window.size ≤ s.model.data_window.capacity →
      (runLearns s calls).model.data_window.size =
        min (s.model.data_window.size + calls.length)
          s.model.data_window.capacity := by
  intro calls
  induction calls with
  | nil =>
    intro s h
    simp [runLearns]
    omega
  | cons c l ih =>
    intro s h
    have h1 : runLearns s (c :: l) = runLearns (learn_one s c.1 c.2) l := rfl
    have hsz : (learn_one s c.1 c.2).model.data_window.size =
        min (s.model.data_window.size + 1) s.model.data_window.capacity := by
      rw [learn_one_window, Window.size_addOne]
    have hcap : (learn_one s c.1 c.2).model.data_window.capacity =
        s.model.data_window.capacity := rfl
    rw [h1, ih _ (by rw [hsz, hcap]; omega), hsz, hcap]
    simp
    omega

/-- C2: starting from a freshly constructed engine with
`max_window_size = c > 0`, after every sequence of `learn_one` calls the
window size is at most `c`, and once `c` inserts have occurred the size
equals exactly `c` (quantifying over all call sequences covers the state
after every individual call). -/
theorem knn_capacity_invariant (n c leaf p : ℕ) (m : String)
    (calls : List (FeatureMap × ℚ)) (hc : 0 < c) :
    (runLearns (freshEngine n c leaf p m) calls).model.data_window.size
      ≤ c ∧
    (c ≤ calls.length →
      (runLearns (freshEngine n c leaf p m)
        calls).model.data_window.size = c) := by
  have h := size_runLearns calls (freshEngine n c leaf p m)
    (by simp [freshEngine, Window.size])
  simp only [freshEngine, Window.size, List.length_nil] at h ⊢
  rw [h]
  constructor
  · omega
  · intro hlen; omega

/-- Witness for C2 at `c = 2` and three inserts: the size is exactly 2. -/
theorem knn_capacity_invariant_witness :
    (runLearns (freshEngine 1 2 30 2 "mean")
      [([("a", 1)], 1), ([("b", 2)], 2), ([("a", 3)], 3)]
      ).model.data_window.size = 2 :=
  (knn_capacity_invariant 1 2 30 2 "mean"
    [([("a", 1)], 1), ([("b", 2)], 2), ([("a", 3)], 3)]
    (by norm_num)).2 (by norm_num)

/-- C1: `predict_one` returns the no-prediction sentinel `none` exactly when
the window holds fewer than `n_neighbors` entries; otherwise it returns a
numeric aggregate (`some` value). -/
theorem predict_one_sentinel_iff (s : EngineState) (x : FeatureMap) :
    (predict_one s x).1 = none ↔
      s.model.data_window.size < s.model.n_neighbors := by
  by_cases h : s.model.data_window.size < s.model.n_neighbors <;>
    simp [predict_one, h]

/-- C10: `predict_one` mutates no engine state — the window and every
stored configuration field are identical before and after the call (only
the process-wide codec registry, which is not engine state, can change). -/
theorem predict_one_frame (s : EngineState) (x : FeatureMap) :
    (predict_one s x).2.model.data_window = s.model.data_window ∧
    (predict_one s x).2.model.data_window.size =
      s.model.data_window.size ∧
    (predict_one s x).2.model.n_neighbors = s.model.n_neighbors ∧
    (predict_one s x).2.model.max_window_size =
      s.model.max_window_size ∧
    (predict_one s x).2.model.leaf_size = s.model.leaf_size ∧
    (predict_one s x).2.model.p = s.model.p ∧
    (predict_one s x).2.model.aggregation_method =
      s.model.aggregation_method := by
  by_cases h : s.model.data_window.size < s.model.n_neighbors <;>
    simp [predict_one, h]

lemma mem_registerNames_of_mem :
    ∀ (x : FeatureMap) (r : List String) (n : String),
      n ∈ r → n ∈ registerNames r x := by
  intro x
  induction x with
  | nil => intro r n h; exact h
  | cons a l ih =>
    intro r n h
    show n ∈ registerNames (if a.1 ∈ r then r else r ++ [a.1]) l
    apply ih
    by_cases ha : a.1 ∈ r <;> simp [ha, h]

lemma keys_mem_registerNames :
    ∀ (x : FeatureMap) (r : List String) (q : String × ℚ),
      q ∈ x → q.1 ∈ registerNames r x := by
  intro x
  induction x with
  | nil => intro r q h; exact absurd h (List.not_mem_nil q)
  | cons a l ih =>
    intro r q hq
    rcases List.mem_cons.mp hq with h | h
    · subst h
      show q.1 ∈ registerNames (if q.1 ∈ r then r else r ++ [q.1]) l
      apply mem_registerNames_of_mem
      by_cases ha : q.1 ∈ r <;> simp [ha]
    · exact ih _ q h

lemma registerNames_eq_self :
    ∀ (x : FeatureMap) (r : List String),
      (∀ q ∈ x, q.1 ∈ r) → registerNames r x = r := by
  intro x
  induction x with
  | nil => intro r _; rfl
  | cons a l ih =>
    intro r h
    have ha : a.1 ∈ r := h a (List.mem_cons_self a l)
    show registerNames (if a.1 ∈ r then r else r ++ [a.1]) l = r
    rw [if_pos ha]
    exact ih r (fun q hq => h q (List.mem_cons_of_mem a hq))

lemma registerNames_idem (r : List String) (x : FeatureMap) :
    registerNames (registerNames r x) x = registerNames r x :=
  registerNames_eq_self x _ (fun q hq => keys_mem_registerNames x r q hq)

lemma project_idem (r : List String) (x : FeatureMap) :
    project (project r x).1 x = project r x := by
  simp [project, registerNames_idem]

/-- C7: two consecutive `predict_one` calls on the same query with no
intervening `learn_one` return identical results — prediction is
deterministic over an unchanged window, tie-breaks included. -/
theorem predict_one_deterministic (s : EngineState) (x : FeatureMap) :
    (predict_one (predict_one s x).2 x).1 = (predict_one s x).1 := by
  by_cases h : s.model.data_window.size < s.model.n_neighbors
  · simp [predict_one, h]
  · have h2 : (predict_one s x).2 = { s with reg := (project s.reg x).1 } := by
      simp [predict_one, h]
    rw [h2]
    have h3 : project (project s.reg x).1 x = project s.reg x :=
      project_idem s.reg x
    simp [predict_one, h, h3]

lemma registerNames_split :
    ∀ (x : FeatureMap) (r : List String),
      ∃ new : List String, registerNames r x = r ++ new ∧
        ∀ n ∈ new, n ∉ r ∧ n ∈ x.map Prod.fst := by
  intro x
  induction x with
  | nil => intro r; exact ⟨[], by simp [registerNames]⟩
  | cons a l ih =>
    intro r
    by_cases ha : a.1 ∈ r
    · obtain ⟨new, h1, h2⟩ := ih r
      refine ⟨new, ?_, ?_⟩
      · show registerNames (if a.1 ∈ r then r else r ++ [a.1]) l = r ++ new
        rw [if_pos ha]
        exact h1
      · intro n hn
        obtain ⟨hn1, hn2⟩ := h2 n hn
        exact ⟨hn1, by simp [hn2]⟩
    · obtain ⟨new, h1, h2⟩ := ih (r ++ [a.1])
      refine ⟨a.1 :: new, ?_, ?_⟩
      · show registerNames (if a.1 ∈ r then r else r ++ [a.1]) l =
          r ++ a.1 :: new
        rw [if_neg ha, h1]
        simp
      · intro n hn
        rcases List.mem_cons.mp hn with h | h
        · subst h
          exact ⟨ha, by simp⟩
        · obtain ⟨hn1, hn2⟩ := h2 n h
          constructor
          · intro hr
            exact hn1 (by simp [hr])
          · simp [hn2]

lemma lookup0_eq_zero (x : FeatureMap) (n : String)
    (h : n ∉ x.map Prod.fst) : lookup0 x n = 0 := by
  have hf : x.find? (fun q => q.1 = n) = none := by
    rw [List.find?_eq_none]
    intro q hq
    simp only [decide_eq_true_eq]
    intro he
    exact h (he ▸ List.mem_map_of_mem Prod.fst hq)
  simp [lookup0, hf]

/-- C6: projecting a named-feature input registers every previously unseen
feature name at the end of the global ordering, and returns a vector whose
length equals the current count of registered names, with names absent from
the input contributing 0, in registration order. -/
theorem codec_projection (r : List String) (x : FeatureMap) :
    (project r x).2.length = (project r x).1.length ∧
    (∀ q ∈ x, q.1 ∈ (project r x).1) ∧
    (∃ new : List String, (project r x).1 = r ++ new ∧
      ∀ n ∈ new, n ∉ r ∧ n ∈ x.map Prod.fst) ∧
    (∀ i, i < (project r x).1.length →
      (project r x).1.getD i "" ∉ x.map Prod.fst →
      (project r x).2.getD i 0 = 0) := by
  refine ⟨by simp [project], ?_, ?_, ?_⟩
  · intro q hq
    exact keys_mem_registerNames x r q hq
  · exact registerNames_split x r
  · intro i hi hnot
    have h2 : (project r x).2 = (project r x).1.map (lookup0 x) := rfl
    have hgd : (project r x).1.getD i "" = (project r x).1.get ⟨i, hi⟩ := by
      simp [List.getD_eq_getElem?_getD, List.getElem?_eq_getElem hi]
    rw [h2]
    have hi2 : i < ((project r x).1.map (lookup0 x)).length := by
      simpa using hi
    rw [List.getD_eq_getElem?_getD, List.getElem?_eq_getElem hi2]
    simp only [List.getElem_map, Option.getD_some]
    apply lookup0_eq_zero
    rw [hgd] at hnot
    simpa using hnot

/-- Witness for C6: registry `["a"]`, input with single feature `"b"`; the
registered name `"a"` is absent from the input, so position 0 of the
projected vector is 0. -/
theorem codec_projection_witness :
    (project ["a"] [("b", 2)]).2.getD 0 0 = 0 :=
  (codec_projection ["a"] [("b", 2)]).2.2.2 0 (by decide) (by decide)

/-- C3: with `n_neighbors=2`, `max_window_size=3`, `p=2`,
`aggregation_method=mean`, after learning `([1],10), ([2],20), ([3],30),
([4],40)` the window holds exactly the entries with targets 20, 30, 40 (the
first sample evicted); the query at 3.5 retrieves the neighbors at 3 and 4,
each at true distance 1/2 (the index works with squared distances, both
`(1/2)^2`), and the prediction is `(30+40)/2 = 35`. -/
theorem knn_mean_scenario :
    (runLearns (freshEngine 2 3 30 2 "mean")
      [([("f", 1)], 10), ([("f", 2)], 20), ([("f", 3)], 30),
       ([("f", 4)], 40)]).model.data_window.entries =
      [([2], 20), ([3], 30), ([4], 40)] ∧
    nearestK 2 2 [([2], 20), ([3], 30), ([4], 40)] [7 / 2] =
      [(powQ (1 / 2) 2, 30), (powQ (1 / 2) 2, 40)] ∧
    (predict_one
      (runLearns (freshEngine 2 3 30 2 "mean")
        [([("f", 1)], 10), ([("f", 2)], 20), ([("f", 3)], 30),
         ([("f", 4)], 40)]) [("f", 7 / 2)]).1 = some 35 := by
  refine ⟨?_, ?_, ?_⟩
  · norm_num [runLearns, freshEngine, learn_one, project, registerNames,
      lookup0, Window.addOne, List.find?]
  · norm_num [nearestK, sortByLt, insertByLt, dpow, zipPad, powQ, absQ]
  · norm_num [predict_one, runLearns, freshEngine, learn_one, project,
      registerNames, lookup0, Window.addOne, Window.size, nearestK,
      sortByLt, insertByLt, dpow, zipPad, powQ, absQ, npMean, List.find?]

lemma sum_map_div (l : List ℚ) (c : ℚ) :
    (l.map (fun q => q / c)).sum = l.sum / c := by
  induction l with
  | nil => simp
  | cons a t ih => simp [ih, add_div]

/-- C4: under `weighted_mean` with a nonzero distance sum, the prediction is
the dot product of the targets with the weights `1 - d_i / Σ d_j`
renormalised to sum to 1; in particular for distances 1 and 3 the weights
are 3/4 and 1/4. -/
theorem weightedMean_formula (dists vals : List ℚ)
    (hS : dists.sum ≠ 0)
    (hW : (dists.map (fun d => 1 - d / dists.sum)).sum ≠ 0) :
    ((dists.map (fun d => 1 - d / dists.sum)).map
        (fun w => w / (dists.map (fun d => 1 - d / dists.sum)).sum)).sum
      = 1 ∧
    weightedMeanAgg dists vals =
      (List.zipWith (fun w v => w * v)
        ((dists.map (fun d => 1 - d / dists.sum)).map
          (fun w => w / (dists.map (fun d => 1 - d / dists.sum)).sum))
        vals).sum ∧
    ∀ t1 t2 : ℚ,
      weightedMeanAgg [1, 3] [t1, t2] = 3 / 4 * t1 + 1 / 4 * t2 := by
  have h1 : ((dists.map (fun d => 1 - d / dists.sum)).map
      (fun w => w / (dists.map (fun d => 1 - d / dists.sum)).sum)).sum
      = 1 := by
    rw [sum_map_div]
    exact div_self hW
  refine ⟨h1, ?_, ?_⟩
  · show npAverage vals
      ((dists.map (fun d => 1 - d / dists.sum)).map
        (fun w => w / (dists.map (fun d => 1 - d / dists.sum)).sum)) = _
    unfold npAverage
    rw [h1, div_one]
  · intro t1 t2
    norm_num [weightedMeanAgg, npAverage]

/-- Witness for C4 at distances (1, 3) and targets (10, 20). -/
theorem weightedMean_formula_witness :
    weightedMeanAgg [1, 3] [10, 20] = 3 / 4 * 10 + 1 / 4 * 20 :=
  (weightedMean_formula [1, 3] [10, 20] (by norm_num)
    (by norm_num)).2.2 10 20

/-- C5 (code bug): with otherwise-valid arguments, an `aggregation_method`
outside the valid set makes construction fail immediately — but with an
`AttributeError` (the `ValueError` message formatting reads the nonexistent
attribute `self.f_WEIGHTED_MEAN`, a typo for `_WEIGHTED_MEAN`), not with the
invalid-argument configuration error the spec requires; every value inside
the set constructs successfully and is stored unchanged. -/
theorem knn_init_attribute_error :
    knn_init 5 1000 30 2 "sum" =
      Except.error (PyError.attributeError
        "KNNRegressor object has no attribute f_WEIGHTED_MEAN") ∧
    (knn_init 5 1000 30 2 "mean").toOption.map
      KNNRegressor.aggregation_method = some "mean" ∧
    (knn_init 5 1000 30 2 "median").toOption.map
      KNNRegressor.aggregation_method = some "median" ∧
    (knn_init 5 1000 30 2 "weighted_mean").toOption.map
      KNNRegressor.aggregation_method = some "weighted_mean" :=
  ⟨rfl, rfl, rfl, rfl⟩

lemma NFloat.add_nan (a : NFloat) : a.add NFloat.nan = NFloat.nan := by
  cases a <;> rfl

lemma NFloat.nan_add (a : NFloat) : NFloat.nan.add a = NFloat.nan := by
  cases a <;> rfl

lemma NFloat.div_nan (a : NFloat) : a.div NFloat.nan = NFloat.nan := by
  cases a <;> rfl

lemma foldl_add_from_nan :
    ∀ l : List NFloat, l.foldl NFloat.add NFloat.nan = NFloat.nan := by
  intro l
  induction l with
  | nil => rfl
  | cons a t ih =>
    show List.foldl NFloat.add (NFloat.nan.add a) t = NFloat.nan
    rw [NFloat.nan_add]
    exact ih

lemma sum_all_nan (l : List NFloat) (hne : l ≠ [])
    (hall : ∀ a ∈ l, a = NFloat.nan) : NFloat.sum l = NFloat.nan := by
  cases l with
  | nil => exact absurd rfl hne
  | cons a t =>
    have ha : a = NFloat.nan := hall a (List.mem_cons_self a t)
    show List.foldl NFloat.add ((NFloat.fin 0).add a) t = NFloat.nan
    rw [ha, NFloat.add_nan]
    exact foldl_add_from_nan t

lemma all_zero_of_sum_eq_zero :
    ∀ l : List ℚ, (∀ d ∈ l, 0 ≤ d) → l.sum = 0 → ∀ d ∈ l, d = 0 := by
  intro l
  induction l with
  | nil => simp
  | cons a t ih =>
    intro hnn hs d hd
    have hta : 0 ≤ a := hnn a (List.mem_cons_self a t)
    have htt : 0 ≤ t.sum :=
      List.sum_nonneg (fun y hy => hnn y (List.mem_cons_of_mem a hy))
    have hsum : a + t.sum = 0 := by simpa using hs
    rcases List.mem_cons.mp hd with h | h
    · subst h; linarith
    · exact ih (fun y hy => hnn y (List.mem_cons_of_mem a hy))
        (by linarith) d h

/-- C8: under `weighted_mean`, when the retrieved neighbor distances sum to
zero (all of them zero, distances being nonnegative), the floating-point
aggregation of lines 147-153 returns NaN — the degenerate condition is
communicated through the return value (the function is total, nothing is
raised) and there is no fallback to uniform weights (NaN is no finite
value). -/
theorem weightedMean_zero_dist_nan (dists vals : List ℚ)
    (hne : dists ≠ []) (hnn : ∀ d ∈ dists, 0 ≤ d)
    (hsum : dists.sum = 0) :
    weightedMeanF dists vals = NFloat.nan := by
  have hz := all_zero_of_sum_eq_zero dists hnn hsum
  have hws : ∀ w ∈ dists.map (fun d =>
      NFloat.sub (NFloat.fin 1)
        (NFloat.div (NFloat.fin d) (NFloat.fin dists.sum))), w = NFloat.nan := by
    intro w hw
    obtain ⟨d, hd, rfl⟩ := List.mem_map.mp hw
    rw [hz d hd, hsum]
    rfl
  have hwsne : dists.map (fun d =>
      NFloat.sub (NFloat.fin 1)
        (NFloat.div (NFloat.fin d) (NFloat.fin dists.sum))) ≠ [] := by
    simpa using hne
  have hW := sum_all_nan _ hwsne hws
  have hwn : ∀ w ∈ (dists.map (fun d =>
      NFloat.sub (NFloat.fin 1)
        (NFloat.div (NFloat.fin d) (NFloat.fin dists.sum)))).map
      (fun w => NFloat.div w (NFloat.sum (dists.map (fun d =>
        NFloat.sub (NFloat.fin 1)
          (NFloat.div (NFloat.fin d) (NFloat.fin dists.sum)))))),
      w = NFloat.nan := by
    intro w hw
    obtain ⟨w0, _, rfl⟩ := List.mem_map.mp hw
    rw [hW]
    exact NFloat.div_nan w0
  have hwnne : (dists.map (fun d =>
      NFloat.sub (NFloat.fin 1)
        (NFloat.div (NFloat.fin d) (NFloat.fin dists.sum)))).map
      (fun w => NFloat.div w (NFloat.sum (dists.map (fun d =>
        NFloat.sub (NFloat.fin 1)
          (NFloat.div (NFloat.fin d) (NFloat.fin dists.sum)))))) ≠ [] := by
    simpa using hne
  have hWn := sum_all_nan _ hwnne hwn
  show NFloat.div _ _ = NFloat.nan
  rw [hWn]
  exact NFloat.div_nan _

/-- Witness for C8: two neighbors at distance 0 — the result is NaN. -/
theorem weightedMean_zero_dist_nan_witness :
    weightedMeanF [0, 0] [10, 20] = NFloat.nan :=
  weightedMean_zero_dist_nan [0, 0] [10, 20] (by simp)
    (by norm_num) (by norm_num)

/-- C9: `CountVectorizer.transform_one` is stateless per call — it leaves
the vectorizer unchanged, the repeated call on the same input returns the
same token-count mapping, and the result depends only on the input and the
construction-time configuration. -/
theorem countVectorizer_stateless (v : CountVectorizer) (x : VecInput) :
    (v.transform_one x).2 = v ∧
    ((v.transform_one x).2.transform_one x).1 = (v.transform_one x).1 ∧
    ∀ w : CountVectorizer, w.onField = v.onField →
      w.preprocessor = v.preprocessor → w.tokenizer = v.tokenizer →
      (w.transform_one x).1 = (v.transform_one x).1 := by
  refine ⟨rfl, rfl, ?_⟩
  intro w h1 h2 h3
  cases x <;>
    simp [CountVectorizer.transform_one, CountVectorizer.getText, h1, h2, h3]

/-- Witness for C9: on the doctest sentence, the second of two consecutive
calls returns the same counts as the first. -/
theorem countVectorizer_stateless_witness :
    ((defaultCountVectorizer.transform_one
        (VecInput.raw "This is the first document.")).2.transform_one
      (VecInput.raw "This is the first document.")).1 =
    (defaultCountVectorizer.transform_one
      (VecInput.raw "This is the first document.")).1 :=
  (countVectorizer_stateless defaultCountVectorizer
    (VecInput.raw "This is the first document.")).2.1

/-- Cross-check of the vectorizer model against the doctest of
`CountVectorizer` (`vectorize.py` lines 104-110): the first corpus sentence
tokenizes to the documented counter. -/
theorem countVectorizer_doctest :
    (defaultCountVectorizer.transform_one
      (VecInput.raw "This is the first document.")).1 =
    some [("this", 1), ("is", 1), ("the", 1), ("first", 1),
          ("document", 1)] := by
  decide

/-- Cross-check: repeated tokens are counted, as in the doctest's second
sentence. -/
theorem countVectorizer_doctest_second :
    (defaultCountVectorizer.transform_one
      (VecInput.raw "This document is the second document.")).1 =
    some [("this", 1), ("document", 2), ("is", 1), ("the", 1),
          ("second", 1)] := by
  decide
